import Mathlib

/-
Verification of the MultSigVault contract (src/contracts/src/vault/MultSigVault.ts).

The contract stores every per-vault field in a host key-value store under a
32-byte key built from a distinct u16 pointer tag, the vault id truncated to
its low 32 bits, and (for indexed slots) a one-byte index.  The key builders
`fieldKey` / `idxKey` are modelled byte-for-byte as lists of byte values.

Because distinct pointer tags and distinct (tag, low-32 id [, index]) tuples
never collide (proved below), the store decomposes into independent per-field
maps.  The contract state is therefore modelled as one map per pointer tag,
each keyed by the truncated vault id `vid vaultId = vaultId % 2^32`, exactly
as every storage access in the source truncates (`u32(vaultId.lo1)`).

Machine integers: u256 values are Nat with explicit bounds; `SafeMath.add`
and `SafeMath.sub` revert on overflow/underflow, modelled as the `Overflow` /
`Underflow` outcomes.  Addresses are opaque Nat values, 0 being the zero
address.  Every revert site of the source is mapped to the error kind of the
spec taxonomy (for example the reverts 'min 2 owners' / 'max 10 owners' both
carry the kind `InvalidOwnerCount`).

Failures abort the whole call and the host rolls back atomically, so a
failing operation is modelled as `Except.error e` carrying no state; the
combinators `stOr` / `stOr1` give the post-call ledger state (unchanged on
failure).  The external asset-transfer calls (`TransferHelper.transfer` /
`transferFrom`) are recorded as `ExtCall` values that also carry the contract
state at the moment the external call is made, so that the
checks-effects-interactions ordering of `executeProposal` is visible.
-/

namespace MultSigVault

/-- Error kinds of the spec taxonomy plus the SafeMath reverts. -/
inductive VaultError where
  | VaultNotFound
  | InvalidOwnerCount
  | ZeroAddressOwner
  | DuplicateOwner
  | InvalidThreshold
  | NotAnOwner
  | ZeroAmount
  | ZeroRecipient
  | InsufficientBalance
  | NoActiveProposal
  | AlreadyApproved
  | ThresholdNotMet
  | Overflow
  | Underflow
deriving DecidableEq, Repr

/-- Storage truncation of a vault id: every key builder in the source uses
`u32(vaultId.lo1)`, the low 32 bits of the 256-bit id. -/
def vid (vaultId : Nat) : Nat := vaultId % 2 ^ 32

/-- Key for a vault field, byte for byte as in the source:
`[ptr_hi, ptr_lo, 26 zero bytes, vaultId_lo32 big-endian (4 bytes)]`. -/
def fieldKey (ptr vaultId : Nat) : List Nat :=
  [ptr / 2 ^ 8 % 256, ptr % 256,
   0, 0, 0, 0, 0, 0, 0, 0, 0, 0, 0, 0, 0, 0, 0, 0, 0, 0, 0, 0, 0, 0, 0, 0, 0, 0,
   vid vaultId / 2 ^ 24 % 256, vid vaultId / 2 ^ 16 % 256,
   vid vaultId / 2 ^ 8 % 256, vid vaultId % 256]

/-- Key for an indexed slot, byte for byte as in the source:
`[ptr_hi, ptr_lo, 25 zero bytes, vaultId_lo32 big-endian (4 bytes), idx]`. -/
def idxKey (ptr vaultId idx : Nat) : List Nat :=
  [ptr / 2 ^ 8 % 256, ptr % 256,
   0, 0, 0, 0, 0, 0, 0, 0, 0, 0, 0, 0, 0, 0, 0, 0, 0, 0, 0, 0, 0, 0, 0, 0, 0,
   vid vaultId / 2 ^ 24 % 256, vid vaultId / 2 ^ 16 % 256,
   vid vaultId / 2 ^ 8 % 256, vid vaultId % 256, idx]

/-- Contract storage, one map per pointer tag, keyed by the truncated vault
id (and owner index for the two indexed tags).  Zero-initialized, as the
host's storage is. -/
structure State where
  vaultCount : Nat
  threshold : Nat → Nat
  ownerCount : Nat → Nat
  token : Nat → Nat
  balance : Nat → Nat
  totalProposals : Nat → Nat
  hasProposal : Nat → Nat
  owner : Nat → Nat → Nat
  propTo : Nat → Nat
  propAmount : Nat → Nat
  propApprovals : Nat → Nat
  approval : Nat → Nat → Nat

/-- The zero-initialized storage at deployment. -/
def init : State where
  vaultCount := 0
  threshold := fun _ => 0
  ownerCount := fun _ => 0
  token := fun _ => 0
  balance := fun _ => 0
  totalProposals := fun _ => 0
  hasProposal := fun _ => 0
  owner := fun _ _ => 0
  propTo := fun _ => 0
  propAmount := fun _ => 0
  propApprovals := fun _ => 0
  approval := fun _ _ => 0

/-- Point update of a per-vault field map. -/
def upd (f : Nat → Nat) (k v : Nat) : Nat → Nat :=
  fun x => if x = k then v else f x

/-- Point update of an indexed field map. -/
def upd2 (f : Nat → Nat → Nat) (k i v : Nat) : Nat → Nat → Nat :=
  fun x y => if x = k ∧ y = i then v else f x y

/-- An external call into the asset contract, recording the contract state at
the moment the call is made.  `transferFrom`'s destination is always the
contract itself and is omitted. -/
inductive ExtCall where
  | transfer (token toAddr amount : Nat) (stateAtCall : State)
  | transferFrom (token fromAddr amount : Nat) (stateAtCall : State)

/-- Source `getOwnerCount`: the stored owner count truncated to u8
(`u8(lu(...).lo1 & 0xff)`). -/
def getOwnerCount (st : State) (vaultId : Nat) : Nat :=
  st.ownerCount (vid vaultId) % 256

/-- Source `requireOwnerIdx`: linear scan of the owner slots for the caller,
returning the first matching index, or `NotAnOwner`. -/
def requireOwnerIdx (st : State) (vaultId sender : Nat) : Except VaultError Nat :=
  match (List.range (getOwnerCount st vaultId)).find?
      (fun i => st.owner (vid vaultId) i == sender) with
  | some i => .ok i
  | none => .error .NotAnOwner

/-- Source `clearProposal`: zero the recipient, amount and approvals fields,
zero the approval flag of every owner index below the stored owner count, and
clear `hasProposal`. -/
def clearProposal (st : State) (vaultId : Nat) : State :=
  { st with
    propTo := upd st.propTo (vid vaultId) 0
    propAmount := upd st.propAmount (vid vaultId) 0
    propApprovals := upd st.propApprovals (vid vaultId) 0
    approval := fun x i =>
      if x = vid vaultId ∧ i < getOwnerCount st vaultId then 0 else st.approval x i
    hasProposal := upd st.hasProposal (vid vaultId) 0 }

/-- The in-call duplicate/zero scan of `createVault`'s owner loop: each owner
is rejected if zero, then compared against all previously read owners. -/
def checkOwners : List Nat → List Nat → Option VaultError
  | _, [] => none
  | seen, o :: rest =>
    if o = 0 then some .ZeroAddressOwner
    else if seen.contains o then some .DuplicateOwner
    else checkOwners (o :: seen) rest

/-- Source `createVault`: validates `2 ≤ ownerCount ≤ 10`, rejects zero and
duplicate owners in calldata order, validates `2 ≤ threshold ≤ ownerCount`,
writes the owner slots and the threshold/ownerCount/token fields of the new
vault (balance, totalProposals, hasProposal are left at their zero default),
and increments the global vault counter with `SafeMath.add`.  Returns the
prior counter value as the new vault id. -/
def createVault (st : State) (token : Nat) (owners : List Nat) (threshold : Nat) :
    Except VaultError (Nat × State) :=
  if owners.length < 2 then .error .InvalidOwnerCount
  else if 10 < owners.length then .error .InvalidOwnerCount
  else match checkOwners [] owners with
  | some e => .error e
  | none =>
    if threshold < 2 then .error .InvalidThreshold
    else if owners.length < threshold then .error .InvalidThreshold
    else if 2 ^ 256 ≤ st.vaultCount + 1 then .error .Overflow
    else .ok (st.vaultCount, { st with
      vaultCount := st.vaultCount + 1
      threshold := upd st.threshold (vid st.vaultCount) threshold
      ownerCount := upd st.ownerCount (vid st.vaultCount) owners.length
      token := upd st.token (vid st.vaultCount) token
      owner := fun x i =>
        if x = vid st.vaultCount ∧ i < owners.length then owners.getD i 0
        else st.owner x i })

/-- Source `deposit`: requires the vault to exist and a non-zero amount, pulls
the amount from the caller via `transferFrom` (external call made on the
pre-increment state), then increments the balance with `SafeMath.add`. -/
def deposit (st : State) (vaultId sender amount : Nat) :
    Except VaultError (ExtCall × State) :=
  if st.vaultCount ≤ vaultId then .error .VaultNotFound
  else if amount = 0 then .error .ZeroAmount
  else if 2 ^ 256 ≤ st.balance (vid vaultId) + amount then .error .Overflow
  else .ok (.transferFrom (st.token (vid vaultId)) sender amount st,
    { st with
      balance := upd st.balance (vid vaultId) (st.balance (vid vaultId) + amount) })

/-- The state written by `propose` after validation and after the replacement
clear: new recipient/amount, `approvals = 1`, the proposer's own flag,
`hasProposal = 1`, incremented `totalProposals`. -/
def proposeWriteState (st1 : State) (vaultId senderIdx toA amount : Nat) :
    State :=
  { st1 with
    propTo := upd st1.propTo (vid vaultId) toA
    propAmount := upd st1.propAmount (vid vaultId) amount
    propApprovals := upd st1.propApprovals (vid vaultId) 1
    approval := upd2 st1.approval (vid vaultId) senderIdx 1
    hasProposal := upd st1.hasProposal (vid vaultId) 1
    totalProposals := upd st1.totalProposals (vid vaultId)
      (st1.totalProposals (vid vaultId) + 1) }

/-- The write block of `propose`, with the `SafeMath` check of the
`totalProposals` increment. -/
def proposeWrite (st1 : State) (vaultId senderIdx toA amount : Nat) :
    Except VaultError State :=
  if 2 ^ 256 ≤ st1.totalProposals (vid vaultId) + 1 then .error .Overflow
  else .ok (proposeWriteState st1 vaultId senderIdx toA amount)

/-- Source `propose`: requires the vault, an owner caller, non-zero amount,
non-zero recipient and `amount ≤ balance`; clears any existing proposal
(discarding all its votes), then writes the new proposal with the proposer's
auto-approval. -/
def propose (st : State) (vaultId sender toA amount : Nat) :
    Except VaultError State :=
  if st.vaultCount ≤ vaultId then .error .VaultNotFound
  else match requireOwnerIdx st vaultId sender with
  | .error e => .error e
  | .ok senderIdx =>
    if amount = 0 then .error .ZeroAmount
    else if toA = 0 then .error .ZeroRecipient
    else if st.balance (vid vaultId) < amount then .error .InsufficientBalance
    else proposeWrite
      (if st.hasProposal (vid vaultId) ≠ 0 then clearProposal st vaultId else st)
      vaultId senderIdx toA amount

/-- The state written by a successful `approve`: the caller's flag set and
the approval count incremented. -/
def approveState (st : State) (vaultId senderIdx : Nat) : State :=
  { st with
    approval := upd2 st.approval (vid vaultId) senderIdx 1
    propApprovals := upd st.propApprovals (vid vaultId)
      (st.propApprovals (vid vaultId) + 1) }

/-- Source `approve`: requires the vault, an owner caller, an active proposal
and a clear flag for the caller; sets the flag and increments the approval
count with `SafeMath.add`. -/
def approve (st : State) (vaultId sender : Nat) : Except VaultError State :=
  if st.vaultCount ≤ vaultId then .error .VaultNotFound
  else match requireOwnerIdx st vaultId sender with
  | .error e => .error e
  | .ok senderIdx =>
    if st.hasProposal (vid vaultId) = 0 then .error .NoActiveProposal
    else if st.approval (vid vaultId) senderIdx ≠ 0 then .error .AlreadyApproved
    else if 2 ^ 256 ≤ st.propApprovals (vid vaultId) + 1 then .error .Overflow
    else .ok (approveState st vaultId senderIdx)

/-- The internal state settled by a successful `executeProposal`: balance
debited by the proposal amount (`SafeMath.sub`), then the proposal cleared. -/
def execWriteState (st : State) (vaultId : Nat) : State :=
  clearProposal
    { st with
      balance := upd st.balance (vid vaultId)
        (st.balance (vid vaultId) - st.propAmount (vid vaultId)) }
    vaultId

/-- Source `executeProposal`: requires the vault, an active proposal and
quorum (`approvals ≥ threshold`, any caller); reads recipient/amount/token,
debits the balance with `SafeMath.sub`, clears the proposal, and only then
makes the external `transfer` call — the `ExtCall` records that the state at
the call is the fully settled one. -/
def executeProposal (st : State) (vaultId : Nat) :
    Except VaultError (ExtCall × State) :=
  if st.vaultCount ≤ vaultId then .error .VaultNotFound
  else if st.hasProposal (vid vaultId) = 0 then .error .NoActiveProposal
  else if st.propApprovals (vid vaultId) < st.threshold (vid vaultId) then
    .error .ThresholdNotMet
  else if st.balance (vid vaultId) < st.propAmount (vid vaultId) then
    .error .Underflow
  else .ok (.transfer (st.token (vid vaultId)) (st.propTo (vid vaultId))
      (st.propAmount (vid vaultId)) (execWriteState st vaultId),
    execWriteState st vaultId)

/-- Source `getVaultCount`. -/
def getVaultCount (st : State) : Nat := st.vaultCount

/-- The record returned by `getVaultInfo`. -/
structure VaultInfo where
  threshold : Nat
  ownerCount : Nat
  token : Nat
  balance : Nat
  totalProposals : Nat
  hasProposal : Nat
  owners : List Nat
deriving DecidableEq, Repr

/-- Source `getVaultInfo`: requires the vault; returns the stored scalar
fields and the owner slots in creation order (count truncated to u8). -/
def getVaultInfo (st : State) (vaultId : Nat) : Except VaultError VaultInfo :=
  if st.vaultCount ≤ vaultId then .error .VaultNotFound
  else .ok
    { threshold := st.threshold (vid vaultId)
      ownerCount := st.ownerCount (vid vaultId)
      token := st.token (vid vaultId)
      balance := st.balance (vid vaultId)
      totalProposals := st.totalProposals (vid vaultId)
      hasProposal := st.hasProposal (vid vaultId)
      owners := (List.range (getOwnerCount st vaultId)).map
        (fun i => st.owner (vid vaultId) i) }

/-- Source `getProposal`: requires the vault and an active proposal; returns
recipient, amount and approval count. -/
def getProposal (st : State) (vaultId : Nat) :
    Except VaultError (Nat × Nat × Nat) :=
  if st.vaultCount ≤ vaultId then .error .VaultNotFound
  else if st.hasProposal (vid vaultId) = 0 then .error .NoActiveProposal
  else .ok (st.propTo (vid vaultId), st.propAmount (vid vaultId),
    st.propApprovals (vid vaultId))

/-- Source `checkOwner`: requires the vault; linear scan for the queried
identity. -/
def checkOwner (st : State) (vaultId addr : Nat) : Except VaultError Bool :=
  if st.vaultCount ≤ vaultId then .error .VaultNotFound
  else .ok ((List.range (getOwnerCount st vaultId)).any
    (fun i => st.owner (vid vaultId) i == addr))

/-- True on a successful outcome; a failed call reverts atomically. -/
def okb {α : Type} : Except VaultError α → Bool
  | .ok _ => true
  | .error _ => false

/-- Post-call ledger state of an operation returning a value and a state:
the new state on success, the unchanged state on revert. -/
def stOr {α : Type} (r : Except VaultError (α × State)) (st : State) : State :=
  match r with
  | .ok (_, s) => s
  | .error _ => st

/-- Post-call ledger state of an operation returning only a state. -/
def stOr1 (r : Except VaultError State) (st : State) : State :=
  match r with
  | .ok s => s
  | .error _ => st

/-- The value returned by a successful `createVault`. -/
def outOf (r : Except VaultError (Nat × State)) : Option Nat :=
  match r with
  | .ok (a, _) => some a
  | .error _ => none

end MultSigVault

namespace MultSigVault

/-- C5: the storage-key builders are injective.  For pointer tags within u16,
vault ids within the reserved 32-bit width and indices within u8:
(a) equal field keys force equal tag and id, (b) equal indexed keys force
equal tag, id and index, and (c) a field key and an indexed key can only
coincide when their tags coincide, so distinct tags never collide across the
two key shapes. -/
theorem storage_key_injective (p1 p2 v1 v2 i1 i2 : Nat)
    (hp1 : p1 < 2 ^ 16) (hp2 : p2 < 2 ^ 16)
    (hv1 : v1 < 2 ^ 32) (hv2 : v2 < 2 ^ 32)
    (hi1 : i1 < 2 ^ 8) (hi2 : i2 < 2 ^ 8) :
    (fieldKey p1 v1 = fieldKey p2 v2 → p1 = p2 ∧ v1 = v2) ∧
    (idxKey p1 v1 i1 = idxKey p2 v2 i2 → p1 = p2 ∧ v1 = v2 ∧ i1 = i2) ∧
    (fieldKey p1 v1 = idxKey p2 v2 i2 → p1 = p2) := by
  have e1 : vid v1 = v1 := Nat.mod_eq_of_lt hv1
  have e2 : vid v2 = v2 := Nat.mod_eq_of_lt hv2
  refine ⟨?_, ?_, ?_⟩ <;> intro h <;>
    simp only [fieldKey, idxKey, e1, e2, List.cons.injEq, and_true] at h <;>
    omega

/-- C5 witness at concrete inputs. -/
theorem storage_key_injective_witness : (3 : Nat) = 3 ∧ (5 : Nat) = 5 :=
  (storage_key_injective 3 3 5 5 0 0 (by decide) (by decide) (by decide)
    (by decide) (by decide) (by decide)).1 rfl

/-- C10: deposit uses checked 256-bit addition.  For an existing vault and a
non-zero amount: when the sum fits in u256 the call succeeds and the new
balance is exactly the old balance plus the amount; when it would exceed the
range the call fails (the addition never wraps) and the balance is unchanged
by the rollback. -/
theorem deposit_checked_addition (st : State) (v sender amount : Nat)
    (hv : v < st.vaultCount) (hamt : amount ≠ 0) :
    (st.balance (vid v) + amount < 2 ^ 256 →
      okb (deposit st v sender amount) = true ∧
      (stOr (deposit st v sender amount) st).balance (vid v) =
        st.balance (vid v) + amount) ∧
    (2 ^ 256 ≤ st.balance (vid v) + amount →
      deposit st v sender amount = .error .Overflow ∧
      stOr (deposit st v sender amount) st = st) := by
  constructor
  · intro hlt
    rw [deposit, if_neg (by omega), if_neg hamt, if_neg (by omega)]
    simp [okb, stOr, upd]
  · intro hge
    rw [deposit, if_neg (by omega), if_neg hamt, if_pos hge]
    simp [stOr]

/-- A one-vault state used by witnesses that need no reachability. -/
def stOne : State := { init with vaultCount := 1 }

/-- C10 witness: depositing 100 into an existing empty vault yields balance
100. -/
theorem deposit_checked_addition_witness :
    okb (deposit stOne 0 9 100) = true ∧
    (stOr (deposit stOne 0 9 100) stOne).balance (vid 0) =
      stOne.balance (vid 0) + 100 :=
  (deposit_checked_addition stOne 0 9 100 (by decide) (by decide)).1 (by decide)

/-- C2: checks-effects-interactions order of `executeProposal`.  On every
successful run, the external transfer call carries the fully settled state:
at the moment the transfer to the recipient is invoked the balance is already
debited by the proposal amount, and the recipient, amount, approval count,
every approval flag and `hasProposal` are already cleared; that settled state
is exactly the final state, so the external call never sees a half-updated
proposal or balance. -/
theorem execute_cei_ordering (st : State) (v : Nat) (c : ExtCall) (st2 : State)
    (h : executeProposal st v = .ok (c, st2)) :
    c = .transfer (st.token (vid v)) (st.propTo (vid v)) (st.propAmount (vid v)) st2 ∧
    st2.balance (vid v) = st.balance (vid v) - st.propAmount (vid v) ∧
    st2.hasProposal (vid v) = 0 ∧ st2.propTo (vid v) = 0 ∧
    st2.propAmount (vid v) = 0 ∧ st2.propApprovals (vid v) = 0 ∧
    (∀ i, i < getOwnerCount st v → st2.approval (vid v) i = 0) := by
  rw [executeProposal] at h
  split at h
  · exact Except.noConfusion h
  split at h
  · exact Except.noConfusion h
  split at h
  · exact Except.noConfusion h
  split at h
  · exact Except.noConfusion h
  injection h with h2
  injection h2 with hc hst
  subst hc hst
  refine ⟨rfl, ?_, ?_, ?_, ?_, ?_, ?_⟩
  · simp [execWriteState, clearProposal, upd]
  · simp [execWriteState, clearProposal, upd]
  · simp [execWriteState, clearProposal, upd]
  · simp [execWriteState, clearProposal, upd]
  · simp [execWriteState, clearProposal, upd]
  · intro i hi
    simp only [getOwnerCount] at hi
    show (if vid v = vid v ∧ i < st.ownerCount (vid v) % 256 then 0
      else st.approval (vid v) i) = 0
    exact if_pos ⟨rfl, hi⟩

/-- A state with one vault (2 owners, threshold 2) holding balance 100 and an
active quorum-reached proposal (recipient 5, amount 40, 2 approvals), used by
the C2 witness. -/
def stExec : State := { init with
  vaultCount := 1
  ownerCount := fun _ => 2
  threshold := fun _ => 2
  owner := fun _ i => i + 1
  balance := fun _ => 100
  hasProposal := fun _ => 1
  propTo := fun _ => 5
  propAmount := fun _ => 40
  propApprovals := fun _ => 2
  approval := fun _ i => if i < 2 then 1 else 0 }

/-- C2 witness: executing the quorum-reached proposal of `stExec` leaves the
state at the external call debited and cleared. -/
theorem execute_cei_ordering_witness :
    (execWriteState stExec 0).balance (vid 0) =
      stExec.balance (vid 0) - stExec.propAmount (vid 0) ∧
    (execWriteState stExec 0).hasProposal (vid 0) = 0 :=
  ⟨(execute_cei_ordering stExec 0 _ _ rfl).2.1,
   (execute_cei_ordering stExec 0 _ _ rfl).2.2.1⟩

end MultSigVault

namespace MultSigVault

theorem checkOwners_eq_none (owners : List Nat) : ∀ seen : List Nat,
    (∀ o ∈ owners, o ≠ 0) → owners.Nodup → (∀ o ∈ owners, o ∉ seen) →
    checkOwners seen owners = none := by
  induction owners with
  | nil => intro seen _ _ _; rfl
  | cons o rest ih =>
    intro seen hz hnd hfresh
    have ho : o ∉ seen := hfresh o (List.mem_cons_self o rest)
    rw [checkOwners, if_neg (hz o (List.mem_cons_self o rest)),
      if_neg (by simp [List.contains, ho])]
    refine ih (o :: seen) (fun x hx => hz x (List.mem_cons_of_mem o hx))
      (List.Nodup.of_cons hnd) (fun x hx hmem => ?_)
    rcases List.mem_cons.mp hmem with h1 | h2
    · exact (List.nodup_cons.mp hnd).1 (h1 ▸ hx)
    · exact hfresh x (List.mem_cons_of_mem o hx) h2

theorem checkOwners_zero (owners : List Nat) : ∀ seen : List Nat,
    0 ∈ owners → owners.Nodup → (∀ o ∈ owners, o ∉ seen) →
    checkOwners seen owners = some .ZeroAddressOwner := by
  induction owners with
  | nil => intro seen h0 _ _; cases h0
  | cons o rest ih =>
    intro seen h0 hnd hfresh
    by_cases ho : o = 0
    · subst ho; rw [checkOwners, if_pos rfl]
    · have h0r : 0 ∈ rest := by
        rcases List.mem_cons.mp h0 with h | h
        · exact absurd h.symm ho
        · exact h
      rw [checkOwners, if_neg ho,
        if_neg (by simp [List.contains, hfresh o (List.mem_cons_self o rest)])]
      refine ih (o :: seen) h0r (List.Nodup.of_cons hnd) (fun x hx hmem => ?_)
      rcases List.mem_cons.mp hmem with h1 | h2
      · exact (List.nodup_cons.mp hnd).1 (h1 ▸ hx)
      · exact hfresh x (List.mem_cons_of_mem o hx) h2

theorem checkOwners_dup (owners : List Nat) : ∀ seen : List Nat,
    (∀ o ∈ owners, o ≠ 0) → ¬(owners.Nodup ∧ ∀ o ∈ owners, o ∉ seen) →
    checkOwners seen owners = some .DuplicateOwner := by
  induction owners with
  | nil =>
    intro seen _ hbad
    exact absurd ⟨List.nodup_nil, by simp⟩ hbad
  | cons o rest ih =>
    intro seen hz hbad
    rw [checkOwners, if_neg (hz o (List.mem_cons_self o rest))]
    by_cases ho : o ∈ seen
    · rw [if_pos (by simp [List.contains, ho])]
    · rw [if_neg (by simp [List.contains, ho])]
      refine ih (o :: seen) (fun x hx => hz x (List.mem_cons_of_mem o hx)) ?_
      rintro ⟨hnd, hfr⟩
      refine hbad ⟨List.nodup_cons.mpr
        ⟨fun hor => hfr o hor (List.mem_cons_self o seen), hnd⟩, ?_⟩
      intro x hx
      rcases List.mem_cons.mp hx with h | h
      · exact h ▸ ho
      · exact fun hs => hfr x h (List.mem_cons_of_mem o hs)

theorem requireOwnerIdx_ok {st : State} {v sender si : Nat}
    (h : requireOwnerIdx st v sender = .ok si) :
    si < getOwnerCount st v ∧ st.owner (vid v) si = sender := by
  unfold requireOwnerIdx at h
  cases hf : (List.range (getOwnerCount st v)).find?
      (fun i => st.owner (vid v) i == sender) with
  | none => rw [hf] at h; exact Except.noConfusion h
  | some j =>
    rw [hf] at h
    injection h with hj
    subst hj
    refine ⟨List.mem_range.mp (List.mem_of_find?_eq_some hf), ?_⟩
    have hp := List.find?_some hf
    simpa using hp

/-- The state written by a successful `createVault`. -/
def createdState (st : State) (token : Nat) (owners : List Nat)
    (threshold : Nat) : State :=
  { st with
    vaultCount := st.vaultCount + 1
    threshold := upd st.threshold (vid st.vaultCount) threshold
    ownerCount := upd st.ownerCount (vid st.vaultCount) owners.length
    token := upd st.token (vid st.vaultCount) token
    owner := fun x i =>
      if x = vid st.vaultCount ∧ i < owners.length then owners.getD i 0
      else st.owner x i }

theorem createVault_succeeds (st : State) (token threshold : Nat)
    (owners : List Nat)
    (h2 : 2 ≤ owners.length) (h10 : owners.length ≤ 10)
    (hco : checkOwners [] owners = none)
    (ht2 : 2 ≤ threshold) (htle : threshold ≤ owners.length)
    (hcap : st.vaultCount + 1 < 2 ^ 256) :
    createVault st token owners threshold =
      .ok (st.vaultCount, createdState st token owners threshold) := by
  have c1 : ¬ owners.length < 2 := by omega
  have c2 : ¬ 10 < owners.length := by omega
  have c3 : ¬ threshold < 2 := by omega
  have c4 : ¬ owners.length < threshold := by omega
  have c5 : ¬ 2 ^ 256 ≤ st.vaultCount + 1 := by omega
  rw [createVault, if_neg c1, if_neg c2, hco, if_neg c3, if_neg c4, if_neg c5,
    createdState]

end MultSigVault

namespace MultSigVault

theorem map_getD_range (l : List Nat) :
    (List.range l.length).map (fun i => l.getD i 0) = l := by
  apply List.ext_getElem
  · simp
  · intro i h1 h2
    simp only [List.getElem_map, List.getElem_range, List.getD_eq_getElem?_getD]
    rw [List.getElem?_eq_getElem h2]
    rfl

/-- C6: `createVault` validation and effect.  With 2-10 pairwise-distinct
non-zero owners and a threshold in `[2, ownerCount]`, creation succeeds,
returns the prior global counter as the vault id, increments the counter by
exactly one, and `getVaultInfo` on the new id returns exactly the given
threshold, owner count, asset and owners in the given order.  An owner count
outside `[2,10]` fails with `InvalidOwnerCount`; a zero owner with
`ZeroAddressOwner`; a duplicate owner with `DuplicateOwner`; a threshold
outside `[2, ownerCount]` with `InvalidThreshold`; each failure leaves
`getVaultCount` unchanged. -/
theorem createVault_spec (st : State) (token threshold : Nat)
    (owners : List Nat) :
    (2 ≤ owners.length → owners.length ≤ 10 → (∀ o ∈ owners, o ≠ 0) →
      owners.Nodup → 2 ≤ threshold → threshold ≤ owners.length →
      st.vaultCount + 1 < 2 ^ 256 →
      outOf (createVault st token owners threshold) = some st.vaultCount ∧
      (stOr (createVault st token owners threshold) st).vaultCount =
        st.vaultCount + 1 ∧
      getVaultInfo (stOr (createVault st token owners threshold) st)
          st.vaultCount =
        .ok { threshold := threshold, ownerCount := owners.length,
              token := token, balance := st.balance (vid st.vaultCount),
              totalProposals := st.totalProposals (vid st.vaultCount),
              hasProposal := st.hasProposal (vid st.vaultCount),
              owners := owners }) ∧
    (owners.length < 2 ∨ 10 < owners.length →
      createVault st token owners threshold = .error .InvalidOwnerCount ∧
      getVaultCount (stOr (createVault st token owners threshold) st) =
        getVaultCount st) ∧
    (2 ≤ owners.length → owners.length ≤ 10 → 0 ∈ owners → owners.Nodup →
      createVault st token owners threshold = .error .ZeroAddressOwner ∧
      getVaultCount (stOr (createVault st token owners threshold) st) =
        getVaultCount st) ∧
    (2 ≤ owners.length → owners.length ≤ 10 → (∀ o ∈ owners, o ≠ 0) →
      ¬ owners.Nodup →
      createVault st token owners threshold = .error .DuplicateOwner ∧
      getVaultCount (stOr (createVault st token owners threshold) st) =
        getVaultCount st) ∧
    (2 ≤ owners.length → owners.length ≤ 10 → (∀ o ∈ owners, o ≠ 0) →
      owners.Nodup → threshold < 2 ∨ owners.length < threshold →
      createVault st token owners threshold = .error .InvalidThreshold ∧
      getVaultCount (stOr (createVault st token owners threshold) st) =
        getVaultCount st) := by
  refine ⟨?_, ?_, ?_, ?_, ?_⟩
  · intro h2 h10 hz hnd ht2 htle hcap
    have hco : checkOwners [] owners = none :=
      checkOwners_eq_none owners [] hz hnd (by simp)
    rw [createVault_succeeds st token threshold owners h2 h10 hco ht2 htle hcap]
    refine ⟨rfl, rfl, ?_⟩
    show getVaultInfo (createdState st token owners threshold) st.vaultCount = _
    rw [getVaultInfo, if_neg (show ¬ (createdState st token owners
      threshold).vaultCount ≤ st.vaultCount from
      Nat.not_succ_le_self st.vaultCount)]
    have hc : getOwnerCount (createdState st token owners threshold)
        st.vaultCount = owners.length := by
      simp [getOwnerCount, createdState, upd,
        Nat.mod_eq_of_lt (show owners.length < 256 by omega)]
    rw [hc]
    have hmap : (List.range owners.length).map
        (fun i => (createdState st token owners threshold).owner
          (vid st.vaultCount) i) = owners := by
      have hstep : ∀ i ∈ List.range owners.length,
          (createdState st token owners threshold).owner (vid st.vaultCount) i =
          (fun i => owners.getD i 0) i := by
        intro i hi
        simp [createdState, List.mem_range.mp hi]
      rw [List.map_congr_left hstep, map_getD_range]
    refine congrArg Except.ok ?_
    rw [hmap]
    simp [createdState, upd]
  · intro hbad
    rcases hbad with h | h
    · rw [createVault, if_pos h]
      exact ⟨rfl, rfl⟩
    · rw [createVault, if_neg (by omega), if_pos h]
      exact ⟨rfl, rfl⟩
  · intro h2 h10 h0 hnd
    have hco : checkOwners [] owners = some .ZeroAddressOwner :=
      checkOwners_zero owners [] h0 hnd (by simp)
    rw [createVault, if_neg (by omega), if_neg (by omega), hco]
    exact ⟨rfl, rfl⟩
  · intro h2 h10 hz hnd
    have hco : checkOwners [] owners = some .DuplicateOwner :=
      checkOwners_dup owners [] hz (by simp [hnd])
    rw [createVault, if_neg (by omega), if_neg (by omega), hco]
    exact ⟨rfl, rfl⟩
  · intro h2 h10 hz hnd hbad
    have hco : checkOwners [] owners = none :=
      checkOwners_eq_none owners [] hz hnd (by simp)
    rcases hbad with h | h
    · rw [createVault, if_neg (by omega), if_neg (by omega), hco, if_pos h]
      exact ⟨rfl, rfl⟩
    · rw [createVault, if_neg (by omega), if_neg (by omega), hco,
        if_neg (by omega), if_pos h]
      exact ⟨rfl, rfl⟩

/-- C6 witness: creating a 3-owner vault with threshold 2 on the initial
state succeeds with vault id 0 and counter 1, and a zero owner is rejected. -/
theorem createVault_spec_witness :
    outOf (createVault init 7 [1, 2, 3] 2) = some init.vaultCount ∧
    (stOr (createVault init 7 [1, 2, 3] 2) init).vaultCount =
      init.vaultCount + 1 ∧
    createVault init 7 [1, 0, 3] 2 = .error .ZeroAddressOwner := by
  have hs := (createVault_spec init 7 2 [1, 2, 3]).1 (by decide) (by decide)
    (by decide) (by decide) (by decide) (by decide) (by decide)
  have hz := (createVault_spec init 7 2 [1, 0, 3]).2.2.1 (by decide) (by decide)
    (by decide) (by decide)
  exact ⟨hs.1, hs.2.1, hz.1⟩

end MultSigVault

namespace MultSigVault

theorem createVault_ok {st : State} {token threshold vId : Nat}
    {owners : List Nat} {st2 : State}
    (h : createVault st token owners threshold = .ok (vId, st2)) :
    vId = st.vaultCount ∧ 2 ≤ owners.length ∧ owners.length ≤ 10 ∧
    2 ≤ threshold ∧ threshold ≤ owners.length ∧
    st.vaultCount + 1 < 2 ^ 256 ∧
    st2 = createdState st token owners threshold := by
  rw [createVault] at h
  split at h
  · exact Except.noConfusion h
  split at h
  · exact Except.noConfusion h
  split at h
  · exact Except.noConfusion h
  split at h
  · exact Except.noConfusion h
  split at h
  · exact Except.noConfusion h
  split at h
  · exact Except.noConfusion h
  injection h with h2
  injection h2 with hv hst
  rename_i h1 h2' h3 h4 h5
  exact ⟨hv.symm, by omega, by omega, by omega, by omega, by omega,
    hst.symm⟩

theorem deposit_ok {st : State} {v sender amount : Nat} {c : ExtCall}
    {st2 : State} (h : deposit st v sender amount = .ok (c, st2)) :
    v < st.vaultCount ∧ amount ≠ 0 ∧
    st.balance (vid v) + amount < 2 ^ 256 ∧
    st2 = { st with
      balance := upd st.balance (vid v) (st.balance (vid v) + amount) } := by
  rw [deposit] at h
  split at h
  · exact Except.noConfusion h
  split at h
  · exact Except.noConfusion h
  split at h
  · exact Except.noConfusion h
  injection h with h2
  injection h2 with hc hst
  rename_i h1 h2' h3
  exact ⟨by omega, h2', by omega, hst.symm⟩

theorem propose_ok {st : State} {v sender toA amount : Nat} {st2 : State}
    (h : propose st v sender toA amount = .ok st2) :
    ∃ si, v < st.vaultCount ∧ requireOwnerIdx st v sender = .ok si ∧
      amount ≠ 0 ∧ toA ≠ 0 ∧ amount ≤ st.balance (vid v) ∧
      st.totalProposals (vid v) + 1 < 2 ^ 256 ∧
      st2 = proposeWriteState
        (if st.hasProposal (vid v) ≠ 0 then clearProposal st v else st)
        v si toA amount := by
  rw [propose] at h
  split at h
  · exact Except.noConfusion h
  rename_i hv
  split at h
  · exact Except.noConfusion h
  rename_i si hro
  split at h
  · exact Except.noConfusion h
  split at h
  · exact Except.noConfusion h
  split at h
  · exact Except.noConfusion h
  rename_i hz hto hbal
  have htot : (if st.hasProposal (vid v) ≠ 0 then clearProposal st v
      else st).totalProposals (vid v) = st.totalProposals (vid v) := by
    split <;> rfl
  rw [proposeWrite, htot] at h
  split at h
  · exact Except.noConfusion h
  rename_i hov
  injection h with hst
  exact ⟨si, by omega, hro, hz, hto, by omega, by omega, hst.symm⟩

theorem approve_ok {st : State} {v sender : Nat} {st2 : State}
    (h : approve st v sender = .ok st2) :
    ∃ si, v < st.vaultCount ∧ requireOwnerIdx st v sender = .ok si ∧
      st.hasProposal (vid v) ≠ 0 ∧ st.approval (vid v) si = 0 ∧
      st.propApprovals (vid v) + 1 < 2 ^ 256 ∧
      st2 = approveState st v si := by
  rw [approve] at h
  split at h
  · exact Except.noConfusion h
  rename_i hv
  split at h
  · exact Except.noConfusion h
  rename_i si hro
  split at h
  · exact Except.noConfusion h
  split at h
  · exact Except.noConfusion h
  split at h
  · exact Except.noConfusion h
  rename_i hp hfl hov
  injection h with hst
  refine ⟨si, by omega, hro, hp, ?_, by omega, hst.symm⟩
  by_contra hne
  exact hfl hne

theorem executeProposal_ok {st : State} {v : Nat} {c : ExtCall} {st2 : State}
    (h : executeProposal st v = .ok (c, st2)) :
    v < st.vaultCount ∧ st.hasProposal (vid v) ≠ 0 ∧
    st.threshold (vid v) ≤ st.propApprovals (vid v) ∧
    st.propAmount (vid v) ≤ st.balance (vid v) ∧
    st2 = execWriteState st v := by
  rw [executeProposal] at h
  split at h
  · exact Except.noConfusion h
  split at h
  · exact Except.noConfusion h
  split at h
  · exact Except.noConfusion h
  split at h
  · exact Except.noConfusion h
  rename_i h1 h2 h3 h4
  injection h with hp
  injection hp with hc hst
  exact ⟨by omega, h2, by omega, by omega, hst.symm⟩

/-- One mutating entry-point call that succeeds.  A failed call rolls back
and leaves the state unchanged, so only successful calls change state. -/
inductive Step : State → State → Prop where
  | create (st : State) (token : Nat) (owners : List Nat)
      (threshold vId : Nat) (st2 : State)
      (h : createVault st token owners threshold = .ok (vId, st2)) :
      Step st st2
  | dep (st : State) (vaultId sender amount : Nat) (c : ExtCall) (st2 : State)
      (h : deposit st vaultId sender amount = .ok (c, st2)) : Step st st2
  | prop (st : State) (vaultId sender toA amount : Nat) (st2 : State)
      (h : propose st vaultId sender toA amount = .ok st2) : Step st st2
  | appr (st : State) (vaultId sender : Nat) (st2 : State)
      (h : approve st vaultId sender = .ok st2) : Step st st2
  | exec (st : State) (vaultId : Nat) (c : ExtCall) (st2 : State)
      (h : executeProposal st vaultId = .ok (c, st2)) : Step st st2

/-- States reachable from deployment by any sequence of successful calls. -/
def Reachable (st : State) : Prop := Relation.ReflTransGen Step init st

theorem Step.vaultCount_mono {st st2 : State} (h : Step st st2) :
    st.vaultCount ≤ st2.vaultCount := by
  cases h
  case create =>
    rename_i hcv
    obtain ⟨-, -, -, -, -, -, hst⟩ := createVault_ok hcv
    subst hst
    exact Nat.le_succ _
  case dep =>
    rename_i hdp
    obtain ⟨-, -, -, hst⟩ := deposit_ok hdp
    subst hst
    exact Nat.le_refl _
  case prop =>
    rename_i vaultId sender toA amount hpr
    obtain ⟨si, -, -, -, -, -, -, hst⟩ := propose_ok hpr
    subst hst
    have hveq : (proposeWriteState
        (if st.hasProposal (vid vaultId) ≠ 0 then clearProposal st vaultId
         else st) vaultId si toA amount).vaultCount = st.vaultCount := by
      show (if st.hasProposal (vid vaultId) ≠ 0 then clearProposal st vaultId
        else st).vaultCount = st.vaultCount
      split <;> rfl
    rw [hveq]
  case appr =>
    rename_i hap
    obtain ⟨si, -, -, -, -, -, hst⟩ := approve_ok hap
    subst hst
    exact Nat.le_refl _
  case exec =>
    rename_i hex
    obtain ⟨-, -, -, -, hst⟩ := executeProposal_ok hex
    subst hst
    exact Nat.le_refl _

end MultSigVault

namespace MultSigVault

theorem upd_self (f : Nat → Nat) (k x : Nat) : upd f k x k = x := if_pos rfl

theorem upd_ne (f : Nat → Nat) (k x v : Nat) (h : v ≠ k) : upd f k x v = f v :=
  if_neg h

theorem upd2_self (f : Nat → Nat → Nat) (k i x : Nat) : upd2 f k i x k i = x :=
  if_pos ⟨rfl, rfl⟩

theorem upd2_ne (f : Nat → Nat → Nat) (k i x v j : Nat)
    (h : ¬(v = k ∧ j = i)) : upd2 f k i x v j = f v j := if_neg h

/-- The spec-side measure: the number of owner indices of vault-slot `v`
whose approval flag is set. -/
def flagCount (st : State) (v : Nat) : Nat :=
  ((Finset.range (st.ownerCount v)).filter (fun i => st.approval v i ≠ 0)).card

theorem flagCount_le (st : State) (v : Nat) :
    flagCount st v ≤ st.ownerCount v := by
  calc flagCount st v ≤ (Finset.range (st.ownerCount v)).card :=
        Finset.card_filter_le _ _
    _ = st.ownerCount v := Finset.card_range _

theorem flagCount_congr {st st2 : State} {v : Nat}
    (hc : st2.ownerCount v = st.ownerCount v)
    (ha : ∀ i, i < st.ownerCount v → st2.approval v i = st.approval v i) :
    flagCount st2 v = flagCount st v := by
  unfold flagCount
  rw [hc]
  congr 1
  apply Finset.filter_congr
  intro i hi
  rw [ha i (Finset.mem_range.mp hi)]

theorem flagCount_single {st : State} {v si : Nat}
    (hsi : si < st.ownerCount v)
    (h : ∀ i, i < st.ownerCount v → i ≠ si → st.approval v i = 0)
    (hs : st.approval v si ≠ 0) :
    flagCount st v = 1 := by
  unfold flagCount
  rw [Finset.card_eq_one]
  refine ⟨si, ?_⟩
  ext i
  simp only [Finset.mem_filter, Finset.mem_range, Finset.mem_singleton]
  constructor
  · rintro ⟨hlt, hne⟩
    by_contra hne2
    exact hne (h i hlt hne2)
  · rintro rfl
    exact ⟨hsi, hs⟩

theorem flagCount_insert {st st2 : State} {v si : Nat}
    (hc : st2.ownerCount v = st.ownerCount v)
    (hsi : si < st.ownerCount v)
    (h0 : st.approval v si = 0)
    (hs : st2.approval v si ≠ 0)
    (ha : ∀ i, i ≠ si → st2.approval v i = st.approval v i) :
    flagCount st2 v = flagCount st v + 1 := by
  unfold flagCount
  rw [hc]
  have hset : (Finset.range (st.ownerCount v)).filter
        (fun i => st2.approval v i ≠ 0) =
      insert si ((Finset.range (st.ownerCount v)).filter
        (fun i => st.approval v i ≠ 0)) := by
    ext i
    simp only [Finset.mem_filter, Finset.mem_range, Finset.mem_insert]
    constructor
    · rintro ⟨hlt, hne⟩
      by_cases hi : i = si
      · exact Or.inl hi
      · exact Or.inr ⟨hlt, by rwa [ha i hi] at hne⟩
    · rintro (rfl | ⟨hlt, hne⟩)
      · exact ⟨hsi, hs⟩
      · by_cases hi : i = si
        · subst hi
          exact (hne h0).elim
        · exact ⟨hlt, by rwa [ha i hi]⟩
  rw [hset, Finset.card_insert_of_not_mem (by simp [Finset.mem_filter, h0])]

theorem clearProposal_approval_lt {st : State} {v i : Nat}
    (h : i < getOwnerCount st v) :
    (clearProposal st v).approval (vid v) i = 0 := by
  show (if vid v = vid v ∧ i < getOwnerCount st v then 0
    else st.approval (vid v) i) = 0
  rw [if_pos ⟨rfl, h⟩]

theorem clearProposal_approval_ge {st : State} {v i : Nat}
    (h : getOwnerCount st v ≤ i) :
    (clearProposal st v).approval (vid v) i = st.approval (vid v) i := by
  show (if vid v = vid v ∧ i < getOwnerCount st v then 0
    else st.approval (vid v) i) = _
  rw [if_neg (fun hc => absurd hc.2 (Nat.not_lt.mpr h))]

theorem clearProposal_approval_ne {st : State} {v : Nat} (w i : Nat)
    (h : w ≠ vid v) :
    (clearProposal st v).approval w i = st.approval w i := by
  show (if w = vid v ∧ i < getOwnerCount st v then 0 else st.approval w i) = _
  rw [if_neg (fun hc => h hc.1)]

end MultSigVault

namespace MultSigVault

@[simp] theorem createdState_vaultCount (st : State) (token : Nat)
    (owners : List Nat) (threshold : Nat) :
    (createdState st token owners threshold).vaultCount = st.vaultCount + 1 :=
  rfl

@[simp] theorem createdState_balance (st : State) (token : Nat)
    (owners : List Nat) (threshold : Nat) :
    (createdState st token owners threshold).balance = st.balance := rfl

@[simp] theorem createdState_totalProposals (st : State) (token : Nat)
    (owners : List Nat) (threshold : Nat) :
    (createdState st token owners threshold).totalProposals =
      st.totalProposals := rfl

@[simp] theorem createdState_hasProposal (st : State) (token : Nat)
    (owners : List Nat) (threshold : Nat) :
    (createdState st token owners threshold).hasProposal = st.hasProposal :=
  rfl

@[simp] theorem createdState_propTo (st : State) (token : Nat)
    (owners : List Nat) (threshold : Nat) :
    (createdState st token owners threshold).propTo = st.propTo := rfl

@[simp] theorem createdState_propAmount (st : State) (token : Nat)
    (owners : List Nat) (threshold : Nat) :
    (createdState st token owners threshold).propAmount = st.propAmount := rfl

@[simp] theorem createdState_propApprovals (st : State) (token : Nat)
    (owners : List Nat) (threshold : Nat) :
    (createdState st token owners threshold).propApprovals =
      st.propApprovals := rfl

@[simp] theorem createdState_approval (st : State) (token : Nat)
    (owners : List Nat) (threshold : Nat) :
    (createdState st token owners threshold).approval = st.approval := rfl

theorem createdState_threshold (st : State) (token : Nat) (owners : List Nat)
    (threshold : Nat) :
    (createdState st token owners threshold).threshold =
      upd st.threshold (vid st.vaultCount) threshold := rfl

theorem createdState_ownerCount (st : State) (token : Nat) (owners : List Nat)
    (threshold : Nat) :
    (createdState st token owners threshold).ownerCount =
      upd st.ownerCount (vid st.vaultCount) owners.length := rfl

@[simp] theorem clearProposal_vaultCount (st : State) (v : Nat) :
    (clearProposal st v).vaultCount = st.vaultCount := rfl

@[simp] theorem clearProposal_threshold (st : State) (v : Nat) :
    (clearProposal st v).threshold = st.threshold := rfl

@[simp] theorem clearProposal_ownerCount (st : State) (v : Nat) :
    (clearProposal st v).ownerCount = st.ownerCount := rfl

@[simp] theorem clearProposal_token (st : State) (v : Nat) :
    (clearProposal st v).token = st.token := rfl

@[simp] theorem clearProposal_balance (st : State) (v : Nat) :
    (clearProposal st v).balance = st.balance := rfl

@[simp] theorem clearProposal_totalProposals (st : State) (v : Nat) :
    (clearProposal st v).totalProposals = st.totalProposals := rfl

@[simp] theorem clearProposal_owner (st : State) (v : Nat) :
    (clearProposal st v).owner = st.owner := rfl

@[simp] theorem proposeWriteState_vaultCount (st1 : State)
    (vaultId senderIdx toA amount : Nat) :
    (proposeWriteState st1 vaultId senderIdx toA amount).vaultCount =
      st1.vaultCount := rfl

@[simp] theorem proposeWriteState_threshold (st1 : State)
    (vaultId senderIdx toA amount : Nat) :
    (proposeWriteState st1 vaultId senderIdx toA amount).threshold =
      st1.threshold := rfl

@[simp] theorem proposeWriteState_ownerCount (st1 : State)
    (vaultId senderIdx toA amount : Nat) :
    (proposeWriteState st1 vaultId senderIdx toA amount).ownerCount =
      st1.ownerCount := rfl

@[simp] theorem proposeWriteState_balance (st1 : State)
    (vaultId senderIdx toA amount : Nat) :
    (proposeWriteState st1 vaultId senderIdx toA amount).balance =
      st1.balance := rfl

@[simp] theorem proposeWriteState_owner (st1 : State)
    (vaultId senderIdx toA amount : Nat) :
    (proposeWriteState st1 vaultId senderIdx toA amount).owner =
      st1.owner := rfl

@[simp] theorem approveState_vaultCount (st : State)
    (vaultId senderIdx : Nat) :
    (approveState st vaultId senderIdx).vaultCount = st.vaultCount := rfl

@[simp] theorem approveState_threshold (st : State) (vaultId senderIdx : Nat) :
    (approveState st vaultId senderIdx).threshold = st.threshold := rfl

@[simp] theorem approveState_ownerCount (st : State)
    (vaultId senderIdx : Nat) :
    (approveState st vaultId senderIdx).ownerCount = st.ownerCount := rfl

@[simp] theorem approveState_balance (st : State) (vaultId senderIdx : Nat) :
    (approveState st vaultId senderIdx).balance = st.balance := rfl

@[simp] theorem approveState_totalProposals (st : State)
    (vaultId senderIdx : Nat) :
    (approveState st vaultId senderIdx).totalProposals =
      st.totalProposals := rfl

@[simp] theorem approveState_hasProposal (st : State)
    (vaultId senderIdx : Nat) :
    (approveState st vaultId senderIdx).hasProposal = st.hasProposal := rfl

@[simp] theorem approveState_propTo (st : State) (vaultId senderIdx : Nat) :
    (approveState st vaultId senderIdx).propTo = st.propTo := rfl

@[simp] theorem approveState_propAmount (st : State)
    (vaultId senderIdx : Nat) :
    (approveState st vaultId senderIdx).propAmount = st.propAmount := rfl

@[simp] theorem approveState_owner (st : State) (vaultId senderIdx : Nat) :
    (approveState st vaultId senderIdx).owner = st.owner := rfl

@[simp] theorem execWriteState_vaultCount (st : State) (v : Nat) :
    (execWriteState st v).vaultCount = st.vaultCount := rfl

@[simp] theorem execWriteState_threshold (st : State) (v : Nat) :
    (execWriteState st v).threshold = st.threshold := rfl

@[simp] theorem execWriteState_ownerCount (st : State) (v : Nat) :
    (execWriteState st v).ownerCount = st.ownerCount := rfl

@[simp] theorem execWriteState_totalProposals (st : State) (v : Nat) :
    (execWriteState st v).totalProposals = st.totalProposals := rfl

@[simp] theorem execWriteState_owner (st : State) (v : Nat) :
    (execWriteState st v).owner = st.owner := rfl

@[simp] theorem execWriteState_balance (st : State) (v : Nat) :
    (execWriteState st v).balance =
      upd st.balance (vid v) (st.balance (vid v) - st.propAmount (vid v)) :=
  rfl

/-- A never-touched vault slot: no proposal and no stale approval flags. -/
def SlotClean (st : State) (w : Nat) : Prop :=
  st.hasProposal w = 0 ∧ ∀ i, st.approval w i = 0

/-- The per-vault invariant of a created vault slot. -/
def vaultOK (st : State) (v : Nat) : Prop :=
  2 ≤ st.ownerCount v ∧ st.ownerCount v ≤ 10 ∧
  2 ≤ st.threshold v ∧ st.threshold v ≤ st.ownerCount v ∧
  (∀ i, st.ownerCount v ≤ i → st.approval v i = 0) ∧
  (st.hasProposal v = 0 → ∀ i, st.approval v i = 0) ∧
  (st.hasProposal v ≠ 0 →
    st.propApprovals v = flagCount st v ∧ 1 ≤ st.propApprovals v ∧
    st.propApprovals v ≤ st.ownerCount v ∧ st.propAmount v ≤ st.balance v)

/-- The global invariant: slots at or above the counter are clean, created
slots satisfy the per-vault invariant. -/
def Inv (st : State) : Prop :=
  (∀ w, st.vaultCount ≤ w → SlotClean st w) ∧
  ∀ v, v < st.vaultCount → vaultOK st v

theorem inv_create {st : State} {token threshold : Nat} {owners : List Nat}
    (hl2 : 2 ≤ owners.length) (hl10 : owners.length ≤ 10)
    (ht2 : 2 ≤ threshold) (htle : threshold ≤ owners.length)
    (hcap : st.vaultCount < 2 ^ 32) (hinv : Inv st) :
    Inv (createdState st token owners threshold) := by
  obtain ⟨hclean, hok⟩ := hinv
  have hw : vid st.vaultCount = st.vaultCount := Nat.mod_eq_of_lt hcap
  constructor
  · intro w hwge
    rw [createdState_vaultCount] at hwge
    obtain ⟨hp, hf⟩ := hclean w (by omega)
    exact ⟨hp, hf⟩
  · intro v hv
    rw [createdState_vaultCount] at hv
    by_cases hve : v = st.vaultCount
    · obtain ⟨hp0, hflags⟩ := hclean v (by omega)
      have hcnt : (createdState st token owners threshold).ownerCount v =
          owners.length := by
        rw [createdState_ownerCount, hw, hve, upd_self]
      have hthr : (createdState st token owners threshold).threshold v =
          threshold := by
        rw [createdState_threshold, hw, hve, upd_self]
      refine ⟨by omega, by omega, by omega, by omega,
        fun i _ => hflags i, fun _ i => hflags i, fun hne => absurd hp0 hne⟩
    · have hvlt : v < st.vaultCount := by omega
      obtain ⟨h1, h2, h3, h4, h5, h6, h7⟩ := hok v hvlt
      have hne : v ≠ vid st.vaultCount := by rw [hw]; omega
      have hcnt : (createdState st token owners threshold).ownerCount v =
          st.ownerCount v := by
        rw [createdState_ownerCount]; exact upd_ne _ _ _ _ hne
      have hthr : (createdState st token owners threshold).threshold v =
          st.threshold v := by
        rw [createdState_threshold]; exact upd_ne _ _ _ _ hne
      have hfc : flagCount (createdState st token owners threshold) v =
          flagCount st v :=
        flagCount_congr hcnt (fun i _ => rfl)
      refine ⟨by omega, by omega, by omega, by omega, ?_, ?_, ?_⟩
      · intro i hi
        rw [hcnt] at hi
        exact h5 i hi
      · exact h6
      · intro hne2
        obtain ⟨a, b, c, d⟩ := h7 hne2
        refine ⟨?_, ?_, ?_, ?_⟩
        · rw [createdState_propApprovals, hfc]
          exact a
        · exact b
        · rw [createdState_propApprovals, hcnt]
          exact c
        · exact d

end MultSigVault

namespace MultSigVault

@[simp] theorem execWriteState_hasProposal (st : State) (v : Nat) :
    (execWriteState st v).hasProposal = upd st.hasProposal (vid v) 0 := rfl

@[simp] theorem execWriteState_propAmount (st : State) (v : Nat) :
    (execWriteState st v).propAmount = upd st.propAmount (vid v) 0 := rfl

@[simp] theorem execWriteState_propApprovals (st : State) (v : Nat) :
    (execWriteState st v).propApprovals = upd st.propApprovals (vid v) 0 :=
  rfl

@[simp] theorem execWriteState_propTo (st : State) (v : Nat) :
    (execWriteState st v).propTo = upd st.propTo (vid v) 0 := rfl

theorem execWriteState_approval_lt {st : State} {v i : Nat}
    (h : i < getOwnerCount st v) :
    (execWriteState st v).approval (vid v) i = 0 := by
  show (if vid v = vid v ∧ i < getOwnerCount st v then 0
    else st.approval (vid v) i) = 0
  rw [if_pos ⟨rfl, h⟩]

theorem execWriteState_approval_ge {st : State} {v i : Nat}
    (h : getOwnerCount st v ≤ i) :
    (execWriteState st v).approval (vid v) i = st.approval (vid v) i := by
  show (if vid v = vid v ∧ i < getOwnerCount st v then 0
    else st.approval (vid v) i) = _
  rw [if_neg (fun hc => absurd hc.2 (Nat.not_lt.mpr h))]

theorem execWriteState_approval_ne {st : State} {v : Nat} (w i : Nat)
    (h : w ≠ vid v) :
    (execWriteState st v).approval w i = st.approval w i := by
  show (if w = vid v ∧ i < getOwnerCount st v then 0 else st.approval w i) = _
  rw [if_neg (fun hc => h hc.1)]

theorem inv_dep {st : State} {v amount : Nat}
    (hv : v < st.vaultCount) (hinv : Inv st) :
    Inv { st with
      balance := upd st.balance (vid v) (st.balance (vid v) + amount) } := by
  obtain ⟨hclean, hok⟩ := hinv
  constructor
  · intro w hwge
    exact hclean w hwge
  · intro v2 hv2
    obtain ⟨k1, k2, k3, k4, k5, k6, k7⟩ := hok v2 hv2
    refine ⟨k1, k2, k3, k4, k5, k6, ?_⟩
    intro hne
    obtain ⟨a, b, c, d⟩ := k7 hne
    refine ⟨a, b, c, ?_⟩
    show st.propAmount v2 ≤
      upd st.balance (vid v) (st.balance (vid v) + amount) v2
    by_cases hvv : v2 = vid v
    · rw [hvv, upd_self]
      calc st.propAmount (vid v) ≤ st.balance (vid v) := hvv ▸ d
        _ ≤ st.balance (vid v) + amount := Nat.le_add_right _ _
    · rw [upd_ne _ _ _ _ hvv]
      exact d

end MultSigVault

namespace MultSigVault

theorem inv_proposeWrite {st st1 : State} {v toA amount si : Nat}
    (hv : v < st.vaultCount) (hcap : st.vaultCount ≤ 2 ^ 32)
    (hsi : si < st.ownerCount v)
    (hbal : amount ≤ st.balance (vid v))
    (hinv : Inv st)
    (hVC : st1.vaultCount = st.vaultCount)
    (hOC : st1.ownerCount = st.ownerCount)
    (hThr : st1.threshold = st.threshold)
    (hBal : st1.balance = st.balance)
    (hA : ∀ i, st1.approval (vid v) i = 0)
    (hApprNe : ∀ w i, w ≠ vid v → st1.approval w i = st.approval w i)
    (hHPne : ∀ w, w ≠ vid v → st1.hasProposal w = st.hasProposal w)
    (hPAne : ∀ w, w ≠ vid v → st1.propAmount w = st.propAmount w)
    (hPVne : ∀ w, w ≠ vid v → st1.propApprovals w = st.propApprovals w) :
    Inv (proposeWriteState st1 v si toA amount) := by
  obtain ⟨hclean, hok⟩ := hinv
  have hw : vid v = v := Nat.mod_eq_of_lt (by omega)
  constructor
  · intro w hwge
    rw [proposeWriteState_vaultCount, hVC] at hwge
    have hwne : w ≠ vid v := by rw [hw]; omega
    obtain ⟨hcp, hcf⟩ := hclean w hwge
    constructor
    · show upd st1.hasProposal (vid v) 1 w = 0
      rw [upd_ne _ _ _ _ hwne, hHPne w hwne]
      exact hcp
    · intro i
      show upd2 st1.approval (vid v) si 1 w i = 0
      rw [upd2_ne _ _ _ _ _ _ (fun hc => hwne hc.1), hApprNe w i hwne]
      exact hcf i
  · intro v2 hv2
    rw [proposeWriteState_vaultCount, hVC] at hv2
    obtain ⟨k1, k2, k3, k4, k5, k6, k7⟩ := hok v2 hv2
    have hOC2 : (proposeWriteState st1 v si toA amount).ownerCount v2 =
        st.ownerCount v2 := by
      rw [proposeWriteState_ownerCount, hOC]
    have hThr2 : (proposeWriteState st1 v si toA amount).threshold v2 =
        st.threshold v2 := by
      rw [proposeWriteState_threshold, hThr]
    by_cases hvv : v2 = v
    · subst hvv
      have hpa : (proposeWriteState st1 v2 si toA amount).propApprovals v2 =
          1 := by
        show upd st1.propApprovals (vid v2) 1 v2 = 1
        rw [hw, upd_self]
      have hhp : (proposeWriteState st1 v2 si toA amount).hasProposal v2 =
          1 := by
        show upd st1.hasProposal (vid v2) 1 v2 = 1
        rw [hw, upd_self]
      have hfs : (proposeWriteState st1 v2 si toA amount).approval v2 si =
          1 := by
        show upd2 st1.approval (vid v2) si 1 v2 si = 1
        rw [hw, upd2_self]
      have hfo : ∀ i, i ≠ si →
          (proposeWriteState st1 v2 si toA amount).approval v2 i = 0 := by
        intro i hi
        show upd2 st1.approval (vid v2) si 1 v2 i = 0
        rw [upd2_ne _ _ _ _ _ _ (fun hc => hi hc.2)]
        exact hw ▸ hA i
      refine ⟨by omega, by omega, by omega, by omega, ?_, ?_, ?_⟩
      · intro i hi
        rw [hOC2] at hi
        exact hfo i (by omega)
      · intro h0
        rw [hhp] at h0
        exact absurd h0 one_ne_zero
      · intro _
        have hfc : flagCount (proposeWriteState st1 v2 si toA amount) v2 =
            1 :=
          flagCount_single (by rw [hOC2]; exact hsi)
            (fun i _ hine => hfo i hine) (by rw [hfs]; exact one_ne_zero)
        have hpm : (proposeWriteState st1 v2 si toA amount).propAmount v2 =
            amount := by
          show upd st1.propAmount (vid v2) amount v2 = amount
          rw [hw, upd_self]
        have hbl : (proposeWriteState st1 v2 si toA amount).balance v2 =
            st.balance v2 := by
          rw [proposeWriteState_balance, hBal]
        refine ⟨by rw [hpa, hfc], by rw [hpa], by rw [hpa, hOC2]; omega, ?_⟩
        rw [hpm, hbl]
        exact hw ▸ hbal
    · have hne : v2 ≠ vid v := by rw [hw]; exact hvv
      have hap2 : ∀ i, (proposeWriteState st1 v si toA amount).approval v2 i =
          st.approval v2 i := by
        intro i
        show upd2 st1.approval (vid v) si 1 v2 i = _
        rw [upd2_ne _ _ _ _ _ _ (fun hc => hne hc.1)]
        exact hApprNe v2 i hne
      have hhp2 : (proposeWriteState st1 v si toA amount).hasProposal v2 =
          st.hasProposal v2 := by
        show upd st1.hasProposal (vid v) 1 v2 = _
        rw [upd_ne _ _ _ _ hne]
        exact hHPne v2 hne
      have hpm2 : (proposeWriteState st1 v si toA amount).propAmount v2 =
          st.propAmount v2 := by
        show upd st1.propAmount (vid v) amount v2 = _
        rw [upd_ne _ _ _ _ hne]
        exact hPAne v2 hne
      have hpa2 : (proposeWriteState st1 v si toA amount).propApprovals v2 =
          st.propApprovals v2 := by
        show upd st1.propApprovals (vid v) 1 v2 = _
        rw [upd_ne _ _ _ _ hne]
        exact hPVne v2 hne
      have hbl2 : (proposeWriteState st1 v si toA amount).balance v2 =
          st.balance v2 := by
        rw [proposeWriteState_balance, hBal]
      have hfc2 : flagCount (proposeWriteState st1 v si toA amount) v2 =
          flagCount st v2 :=
        flagCount_congr hOC2 (fun i _ => hap2 i)
      refine ⟨by omega, by omega, by omega, by omega, ?_, ?_, ?_⟩
      · intro i hi
        rw [hOC2] at hi
        rw [hap2 i]
        exact k5 i hi
      · intro h0 i
        rw [hhp2] at h0
        rw [hap2 i]
        exact k6 h0 i
      · intro hne2
        rw [hhp2] at hne2
        obtain ⟨a, b, c, d⟩ := k7 hne2
        exact ⟨by rw [hpa2, hfc2]; exact a, by rw [hpa2]; exact b,
          by rw [hpa2, hOC2]; exact c, by rw [hpm2, hbl2]; exact d⟩

theorem inv_propose {st : State} {v sender toA amount si : Nat}
    (hv : v < st.vaultCount) (hcap : st.vaultCount ≤ 2 ^ 32)
    (hro : requireOwnerIdx st v sender = .ok si)
    (hbal : amount ≤ st.balance (vid v))
    (hinv : Inv st) :
    Inv (proposeWriteState
      (if st.hasProposal (vid v) ≠ 0 then clearProposal st v else st)
      v si toA amount) := by
  have hw : vid v = v := Nat.mod_eq_of_lt (by omega)
  have hgoc : getOwnerCount st v = st.ownerCount v := by
    have k2 := (hinv.2 v hv).2.1
    rw [getOwnerCount, hw]
    exact Nat.mod_eq_of_lt (by omega)
  have hsi : si < st.ownerCount v := by
    have h := (requireOwnerIdx_ok hro).1
    omega
  by_cases hp : st.hasProposal (vid v) ≠ 0
  · rw [if_pos hp]
    refine inv_proposeWrite hv hcap hsi hbal hinv rfl rfl rfl rfl
      ?_ ?_ ?_ ?_ ?_
    · intro i
      by_cases hi : i < getOwnerCount st v
      · exact clearProposal_approval_lt hi
      · rw [clearProposal_approval_ge (by omega), hw]
        exact (hinv.2 v hv).2.2.2.2.1 i (by omega)
    · intro w i hwne
      exact clearProposal_approval_ne w i hwne
    · intro w hwne
      show upd st.hasProposal (vid v) 0 w = _
      exact upd_ne _ _ _ _ hwne
    · intro w hwne
      show upd st.propAmount (vid v) 0 w = _
      exact upd_ne _ _ _ _ hwne
    · intro w hwne
      show upd st.propApprovals (vid v) 0 w = _
      exact upd_ne _ _ _ _ hwne
  · rw [if_neg hp]
    have hp0 : st.hasProposal v = 0 := hw ▸ not_not.mp hp
    refine inv_proposeWrite hv hcap hsi hbal hinv rfl rfl rfl rfl
      ?_ ?_ ?_ ?_ ?_
    · intro i
      rw [hw]
      exact (hinv.2 v hv).2.2.2.2.2.1 hp0 i
    · intro w i _
      rfl
    · intro w _
      rfl
    · intro w _
      rfl
    · intro w _
      rfl

end MultSigVault

namespace MultSigVault

theorem inv_approve {st : State} {v sender si : Nat}
    (hv : v < st.vaultCount) (hcap : st.vaultCount ≤ 2 ^ 32)
    (hro : requireOwnerIdx st v sender = .ok si)
    (hp : st.hasProposal (vid v) ≠ 0)
    (hfl : st.approval (vid v) si = 0)
    (hinv : Inv st) :
    Inv (approveState st v si) := by
  obtain ⟨hclean, hok⟩ := hinv
  have hw : vid v = v := Nat.mod_eq_of_lt (by omega)
  obtain ⟨k1, k2, k3, k4, k5, k6, k7⟩ := hok v hv
  have hgoc : getOwnerCount st v = st.ownerCount v := by
    rw [getOwnerCount, hw]
    exact Nat.mod_eq_of_lt (by omega)
  have hsi : si < st.ownerCount v := by
    have h := (requireOwnerIdx_ok hro).1
    omega
  have hpv : st.hasProposal v ≠ 0 := hw ▸ hp
  have hflv : st.approval v si = 0 := hw ▸ hfl
  obtain ⟨a, b, c, d⟩ := k7 hpv
  have hfs : (approveState st v si).approval v si = 1 := by
    show upd2 st.approval (vid v) si 1 v si = 1
    rw [hw, upd2_self]
  have hfo : ∀ i, i ≠ si →
      (approveState st v si).approval v i = st.approval v i := by
    intro i hi
    show upd2 st.approval (vid v) si 1 v i = _
    rw [upd2_ne _ _ _ _ _ _ (fun hc => hi hc.2)]
  have hpa : (approveState st v si).propApprovals v =
      st.propApprovals v + 1 := by
    show upd st.propApprovals (vid v) (st.propApprovals (vid v) + 1) v = _
    rw [hw, upd_self]
  have hfc : flagCount (approveState st v si) v = flagCount st v + 1 :=
    flagCount_insert (by rw [approveState_ownerCount]) hsi hflv
      (by rw [hfs]; exact one_ne_zero) hfo
  constructor
  · intro w hwge
    rw [approveState_vaultCount] at hwge
    have hwne : w ≠ vid v := by rw [hw]; omega
    obtain ⟨hcp, hcf⟩ := hclean w hwge
    constructor
    · show st.hasProposal w = 0
      exact hcp
    · intro i
      show upd2 st.approval (vid v) si 1 w i = 0
      rw [upd2_ne _ _ _ _ _ _ (fun hc => hwne hc.1)]
      exact hcf i
  · intro v2 hv2
    rw [approveState_vaultCount] at hv2
    by_cases hvv : v2 = v
    · subst hvv
      refine ⟨k1, k2, k3, k4, ?_, ?_, ?_⟩
      · intro i hi
        rw [approveState_ownerCount] at hi
        rw [hfo i (by omega)]
        exact k5 i hi
      · intro h0
        rw [approveState_hasProposal] at h0
        exact absurd h0 hpv
      · intro _
        have hbound : flagCount (approveState st v2 si) v2 ≤
            st.ownerCount v2 := by
          have h := flagCount_le (approveState st v2 si) v2
          rwa [approveState_ownerCount] at h
        refine ⟨by rw [hpa, hfc, a], by rw [hpa]; omega, ?_, ?_⟩
        · rw [hpa, hfc, a] at *
          rw [approveState_ownerCount]
          omega
        · show st.propAmount v2 ≤ st.balance v2
          exact d
    · have hne : v2 ≠ vid v := by rw [hw]; exact hvv
      obtain ⟨m1, m2, m3, m4, m5, m6, m7⟩ := hok v2 hv2
      have hap2 : ∀ i, (approveState st v si).approval v2 i =
          st.approval v2 i := by
        intro i
        show upd2 st.approval (vid v) si 1 v2 i = _
        rw [upd2_ne _ _ _ _ _ _ (fun hc => hne hc.1)]
      have hpa2 : (approveState st v si).propApprovals v2 =
          st.propApprovals v2 := by
        show upd st.propApprovals (vid v) (st.propApprovals (vid v) + 1) v2 = _
        rw [upd_ne _ _ _ _ hne]
      have hfc2 : flagCount (approveState st v si) v2 = flagCount st v2 :=
        flagCount_congr (by rw [approveState_ownerCount])
          (fun i _ => hap2 i)
      refine ⟨m1, m2, m3, m4, ?_, ?_, ?_⟩
      · intro i hi
        rw [approveState_ownerCount] at hi
        rw [hap2 i]
        exact m5 i hi
      · intro h0 i
        rw [approveState_hasProposal] at h0
        rw [hap2 i]
        exact m6 h0 i
      · intro hne2
        rw [approveState_hasProposal] at hne2
        obtain ⟨a2, b2, c2, d2⟩ := m7 hne2
        exact ⟨by rw [hpa2, hfc2]; exact a2, by rw [hpa2]; exact b2,
          by rw [hpa2, approveState_ownerCount]; exact c2,
          by show st.propAmount v2 ≤ st.balance v2; exact d2⟩

theorem inv_exec {st : State} {v : Nat}
    (hv : v < st.vaultCount) (hcap : st.vaultCount ≤ 2 ^ 32)
    (hinv : Inv st) : Inv (execWriteState st v) := by
  obtain ⟨hclean, hok⟩ := hinv
  have hw : vid v = v := Nat.mod_eq_of_lt (by omega)
  obtain ⟨k1, k2, k3, k4, k5, k6, k7⟩ := hok v hv
  have hgoc : getOwnerCount st v = st.ownerCount v := by
    rw [getOwnerCount, hw]
    exact Nat.mod_eq_of_lt (by omega)
  have hall : ∀ i, (execWriteState st v).approval v i = 0 := by
    intro i
    by_cases hi : i < getOwnerCount st v
    · show (if v = vid v ∧ i < getOwnerCount st v then 0
        else st.approval v i) = 0
      rw [if_pos ⟨hw.symm, hi⟩]
    · show (if v = vid v ∧ i < getOwnerCount st v then 0
        else st.approval v i) = 0
      rw [if_neg (fun hc => hi hc.2)]
      exact k5 i (by omega)
  constructor
  · intro w hwge
    rw [execWriteState_vaultCount] at hwge
    have hwne : w ≠ vid v := by rw [hw]; omega
    obtain ⟨hcp, hcf⟩ := hclean w hwge
    constructor
    · rw [execWriteState_hasProposal, upd_ne _ _ _ _ hwne]
      exact hcp
    · intro i
      rw [execWriteState_approval_ne w i hwne]
      exact hcf i
  · intro v2 hv2
    rw [execWriteState_vaultCount] at hv2
    by_cases hvv : v2 = v
    · subst hvv
      refine ⟨k1, k2, k3, k4, fun i _ => hall i, fun _ i => hall i, ?_⟩
      intro hne
      rw [execWriteState_hasProposal, hw, upd_self] at hne
      exact absurd rfl hne
    · have hne : v2 ≠ vid v := by rw [hw]; exact hvv
      obtain ⟨m1, m2, m3, m4, m5, m6, m7⟩ := hok v2 hv2
      have hap2 : ∀ i, (execWriteState st v).approval v2 i =
          st.approval v2 i := fun i => execWriteState_approval_ne v2 i hne
      have hhp2 : (execWriteState st v).hasProposal v2 =
          st.hasProposal v2 := by
        rw [execWriteState_hasProposal, upd_ne _ _ _ _ hne]
      have hpm2 : (execWriteState st v).propAmount v2 =
          st.propAmount v2 := by
        rw [execWriteState_propAmount, upd_ne _ _ _ _ hne]
      have hpa2 : (execWriteState st v).propApprovals v2 =
          st.propApprovals v2 := by
        rw [execWriteState_propApprovals, upd_ne _ _ _ _ hne]
      have hbl2 : (execWriteState st v).balance v2 = st.balance v2 := by
        rw [execWriteState_balance, upd_ne _ _ _ _ hne]
      have hfc2 : flagCount (execWriteState st v) v2 = flagCount st v2 :=
        flagCount_congr (by rw [execWriteState_ownerCount])
          (fun i _ => hap2 i)
      refine ⟨m1, m2, m3, m4, ?_, ?_, ?_⟩
      · intro i hi
        rw [execWriteState_ownerCount] at hi
        rw [hap2 i]
        exact m5 i hi
      · intro h0 i
        rw [hhp2] at h0
        rw [hap2 i]
        exact m6 h0 i
      · intro hne2
        rw [hhp2] at hne2
        obtain ⟨a2, b2, c2, d2⟩ := m7 hne2
        exact ⟨by rw [hpa2, hfc2]; exact a2, by rw [hpa2]; exact b2,
          by rw [hpa2, execWriteState_ownerCount]; exact c2,
          by rw [hpm2, hbl2]; exact d2⟩

end MultSigVault

namespace MultSigVault

theorem inv_step {st st2 : State} (h : Step st st2)
    (hcap : st2.vaultCount ≤ 2 ^ 32) (hinv : Inv st) : Inv st2 := by
  cases h
  case create =>
    rename_i hcv
    obtain ⟨-, hl2, hl10, ht2, htle, -, hst⟩ := createVault_ok hcv
    subst hst
    rw [createdState_vaultCount] at hcap
    exact inv_create hl2 hl10 ht2 htle (by omega) hinv
  case dep =>
    rename_i hdp
    obtain ⟨hvlt, -, -, hst⟩ := deposit_ok hdp
    subst hst
    exact inv_dep hvlt hinv
  case prop =>
    rename_i vaultId sender toA amount hpr
    obtain ⟨si, hvlt, hro, -, -, hbal, -, hst⟩ := propose_ok hpr
    subst hst
    have hvq : (proposeWriteState
        (if st.hasProposal (vid vaultId) ≠ 0 then clearProposal st vaultId
         else st) vaultId si toA amount).vaultCount = st.vaultCount := by
      rw [proposeWriteState_vaultCount]
      split <;> rfl
    rw [hvq] at hcap
    exact inv_propose hvlt hcap hro hbal hinv
  case appr =>
    rename_i vaultId sender hap
    obtain ⟨si, hvlt, hro, hp, hfl, -, hst⟩ := approve_ok hap
    subst hst
    rw [approveState_vaultCount] at hcap
    exact inv_approve hvlt hcap hro hp hfl hinv
  case exec =>
    rename_i vaultId c hex
    obtain ⟨hvlt, -, -, -, hst⟩ := executeProposal_ok hex
    subst hst
    rw [execWriteState_vaultCount] at hcap
    exact inv_exec hvlt hcap hinv

theorem reachable_inv {st : State} (h : Reachable st) :
    st.vaultCount ≤ 2 ^ 32 → Inv st := by
  have h2 : Relation.ReflTransGen Step init st := h
  clear h
  induction h2 with
  | refl =>
    intro _
    exact ⟨fun w _ => ⟨rfl, fun i => rfl⟩,
      fun v hv => absurd hv (Nat.not_lt_zero v)⟩
  | tail hab hstep ih =>
    intro hcap
    exact inv_step hstep hcap
      (ih (Nat.le_trans (Step.vaultCount_mono hstep) hcap))

end MultSigVault

namespace MultSigVault

/-- Witness trace: a 2-of-3 vault (owners 1,2,3, asset 7) is created, 100 is
deposited, owner 1 proposes sending 40 to 5, owner 2 approves (quorum). -/
def s1 : State := stOr (createVault init 7 [1, 2, 3] 2) init

def s2 : State := stOr (deposit s1 0 9 100) s1

def s3 : State := stOr1 (propose s2 0 1 5 40) s2

def s4 : State := stOr1 (approve s3 0 2) s3

theorem reach_s1 : Reachable s1 :=
  Relation.ReflTransGen.single (Step.create init 7 [1, 2, 3] 2 0 s1 rfl)

theorem reach_s2 : Reachable s2 :=
  reach_s1.tail (Step.dep s1 0 9 100 _ s2 rfl)

theorem reach_s3 : Reachable s3 :=
  reach_s2.tail (Step.prop s2 0 1 5 40 s3 rfl)

theorem reach_s4 : Reachable s4 :=
  reach_s3.tail (Step.appr s3 0 2 s4 rfl)

theorem propose_succeeds {st : State} {v sender toA amount si : Nat}
    (hv : v < st.vaultCount)
    (hro : requireOwnerIdx st v sender = .ok si)
    (hamt : amount ≠ 0) (hto : toA ≠ 0)
    (hbal : amount ≤ st.balance (vid v))
    (htot : st.totalProposals (vid v) + 1 < 2 ^ 256) :
    propose st v sender toA amount = .ok (proposeWriteState
      (if st.hasProposal (vid v) ≠ 0 then clearProposal st v else st)
      v si toA amount) := by
  rw [propose, if_neg (by omega), hro]
  show (if amount = 0 then Except.error VaultError.ZeroAmount
    else if toA = 0 then Except.error VaultError.ZeroRecipient
    else if st.balance (vid v) < amount then
      Except.error VaultError.InsufficientBalance
    else proposeWrite
      (if st.hasProposal (vid v) ≠ 0 then clearProposal st v else st)
      v si toA amount) = _
  rw [if_neg hamt, if_neg hto, if_neg (by omega), proposeWrite]
  have htot2 : (if st.hasProposal (vid v) ≠ 0 then clearProposal st v
      else st).totalProposals (vid v) = st.totalProposals (vid v) := by
    split <;> rfl
  rw [htot2, if_neg (by omega)]

theorem approve_succeeds {st : State} {v sender si : Nat}
    (hv : v < st.vaultCount)
    (hro : requireOwnerIdx st v sender = .ok si)
    (hp : st.hasProposal (vid v) ≠ 0)
    (hfl : st.approval (vid v) si = 0)
    (hov : st.propApprovals (vid v) + 1 < 2 ^ 256) :
    approve st v sender = .ok (approveState st v si) := by
  rw [approve, if_neg (by omega), hro]
  show (if st.hasProposal (vid v) = 0 then
      Except.error VaultError.NoActiveProposal
    else if st.approval (vid v) si ≠ 0 then
      Except.error VaultError.AlreadyApproved
    else if 2 ^ 256 ≤ st.propApprovals (vid v) + 1 then
      Except.error VaultError.Overflow
    else Except.ok (approveState st v si)) = _
  rw [if_neg hp, if_neg (fun hne => hne hfl), if_neg (by omega)]

theorem approve_fails_already {st : State} {v sender si : Nat}
    (hv : v < st.vaultCount)
    (hro : requireOwnerIdx st v sender = .ok si)
    (hp : st.hasProposal (vid v) ≠ 0)
    (hfl : st.approval (vid v) si ≠ 0) :
    approve st v sender = .error .AlreadyApproved := by
  rw [approve, if_neg (by omega), hro]
  show (if st.hasProposal (vid v) = 0 then
      Except.error VaultError.NoActiveProposal
    else if st.approval (vid v) si ≠ 0 then
      Except.error VaultError.AlreadyApproved
    else if 2 ^ 256 ≤ st.propApprovals (vid v) + 1 then
      Except.error VaultError.Overflow
    else Except.ok (approveState st v si)) = _
  rw [if_neg hp, if_pos hfl]

end MultSigVault

namespace MultSigVault

/-- C3: in every reachable state (within the 32-bit vault-id width the design
reserves), every vault with an active proposal stores an approval count that
equals the number of owner indices whose approval flag is set, is at least 1
(the proposer's auto-set flag), and is at most the owner count. -/
theorem approvals_count_invariant (st : State) (v : Nat)
    (hreach : Reachable st) (hcap : st.vaultCount ≤ 2 ^ 32)
    (hv : v < st.vaultCount) (hp : st.hasProposal v ≠ 0) :
    st.propApprovals v = flagCount st v ∧ 1 ≤ st.propApprovals v ∧
    st.propApprovals v ≤ st.ownerCount v := by
  obtain ⟨-, hok⟩ := reachable_inv hreach hcap
  obtain ⟨-, -, -, -, -, -, k7⟩ := hok v hv
  obtain ⟨a, b, c, -⟩ := k7 hp
  exact ⟨a, b, c⟩

/-- C3 witness: the invariant holds on the concrete state after the trace
create, deposit, propose. -/
theorem approvals_count_invariant_witness :
    s3.propApprovals 0 = flagCount s3 0 ∧ 1 ≤ s3.propApprovals 0 ∧
    s3.propApprovals 0 ≤ s3.ownerCount 0 :=
  approvals_count_invariant s3 0 reach_s3 (by decide) (by decide) (by decide)

/-- C8: the balance debit of `executeProposal` cannot underflow.  In every
reachable state where the guards pass (vault exists, active proposal, quorum
reached) the proposal amount is at most the balance — propose checked
`amount ≤ balance` and only deposits touched the balance since — so the
checked subtraction's failure branch is unreachable and the call succeeds. -/
theorem execute_underflow_unreachable (st : State) (v : Nat)
    (hreach : Reachable st) (hcap : st.vaultCount ≤ 2 ^ 32)
    (hv : v < st.vaultCount) (hp : st.hasProposal v ≠ 0)
    (hq : st.threshold v ≤ st.propApprovals v) :
    st.propAmount v ≤ st.balance v ∧
    executeProposal st v ≠ .error .Underflow ∧
    okb (executeProposal st v) = true := by
  obtain ⟨-, hok⟩ := reachable_inv hreach hcap
  obtain ⟨-, -, -, -, -, -, k7⟩ := hok v hv
  obtain ⟨-, -, -, d⟩ := k7 hp
  have hw : vid v = v := Nat.mod_eq_of_lt (by omega)
  have he : executeProposal st v = .ok (ExtCall.transfer (st.token (vid v))
      (st.propTo (vid v)) (st.propAmount (vid v)) (execWriteState st v),
      execWriteState st v) := by
    rw [executeProposal, if_neg (by omega), if_neg (by rw [hw]; exact hp),
      if_neg (by rw [hw]; omega), if_neg (by rw [hw]; omega)]
  refine ⟨d, ?_, ?_⟩
  · rw [he]
    intro hcon
    exact Except.noConfusion hcon
  · rw [he]
    rfl

/-- C8 witness: on the concrete quorum-reached state the debit succeeds. -/
theorem execute_underflow_unreachable_witness :
    s4.propAmount 0 ≤ s4.balance 0 ∧
    executeProposal s4 0 ≠ .error .Underflow ∧
    okb (executeProposal s4 0) = true :=
  execute_underflow_unreachable s4 0 reach_s4 (by decide) (by decide)
    (by decide) (by decide)

/-- C1: for every vault of a reachable state with an active proposal,
`executeProposal` fails with `ThresholdNotMet` when `approvals < threshold`,
leaving the state unchanged; when `approvals ≥ threshold` it succeeds,
decrements the balance by exactly the proposal amount, clears `hasProposal`,
and a subsequent `getProposal` fails with `NoActiveProposal`. -/
theorem execute_quorum_gate (st : State) (v : Nat)
    (hreach : Reachable st) (hcap : st.vaultCount ≤ 2 ^ 32)
    (hv : v < st.vaultCount) (hp : st.hasProposal v ≠ 0) :
    (st.propApprovals v < st.threshold v →
      executeProposal st v = .error .ThresholdNotMet ∧
      stOr (executeProposal st v) st = st) ∧
    (st.threshold v ≤ st.propApprovals v →
      okb (executeProposal st v) = true ∧
      st.propAmount v ≤ st.balance v ∧
      (stOr (executeProposal st v) st).balance v =
        st.balance v - st.propAmount v ∧
      (stOr (executeProposal st v) st).hasProposal v = 0 ∧
      getProposal (stOr (executeProposal st v) st) v =
        .error .NoActiveProposal) := by
  obtain ⟨-, hok⟩ := reachable_inv hreach hcap
  obtain ⟨-, -, -, -, -, -, k7⟩ := hok v hv
  obtain ⟨-, -, -, d⟩ := k7 hp
  have hw : vid v = v := Nat.mod_eq_of_lt (by omega)
  constructor
  · intro hlt
    have he : executeProposal st v = .error .ThresholdNotMet := by
      rw [executeProposal, if_neg (by omega), if_neg (by rw [hw]; exact hp),
        if_pos (by rw [hw]; omega)]
    rw [he]
    exact ⟨rfl, rfl⟩
  · intro hge
    have he : executeProposal st v = .ok (ExtCall.transfer (st.token (vid v))
        (st.propTo (vid v)) (st.propAmount (vid v)) (execWriteState st v),
        execWriteState st v) := by
      rw [executeProposal, if_neg (by omega), if_neg (by rw [hw]; exact hp),
        if_neg (by rw [hw]; omega), if_neg (by rw [hw]; omega)]
    rw [he]
    refine ⟨rfl, d, ?_, ?_, ?_⟩
    · show (execWriteState st v).balance v = _
      rw [execWriteState_balance, hw, upd_self]
    · show (execWriteState st v).hasProposal v = 0
      rw [execWriteState_hasProposal, hw, upd_self]
    · show getProposal (execWriteState st v) v = _
      rw [getProposal,
        if_neg (by rw [execWriteState_vaultCount]; omega),
        if_pos (show (execWriteState st v).hasProposal (vid v) = 0 by
          rw [execWriteState_hasProposal, upd_self])]

/-- C1 witness: executing the quorum-reached concrete proposal succeeds and
clears it. -/
theorem execute_quorum_gate_witness :
    okb (executeProposal s4 0) = true ∧
    (stOr (executeProposal s4 0) s4).balance 0 =
      s4.balance 0 - s4.propAmount 0 ∧
    getProposal (stOr (executeProposal s4 0) s4) 0 =
      .error .NoActiveProposal := by
  have h := (execute_quorum_gate s4 0 reach_s4 (by decide) (by decide)
    (by decide)).2 (by decide)
  exact ⟨h.1, h.2.2.1, h.2.2.2.2⟩

/-- C7: for every vault of a reachable state with an active proposal and
every owner (resolved to slot `si`): when the owner's flag is clear,
`approve` succeeds, sets the flag, and increments the approval count by
exactly 1, leaving all other flags unchanged; when the flag is already set
(including the proposer's auto-set flag), `approve` fails with
`AlreadyApproved` and changes nothing. -/
theorem approve_spec (st : State) (v sender si : Nat)
    (hreach : Reachable st) (hcap : st.vaultCount ≤ 2 ^ 32)
    (hv : v < st.vaultCount) (hp : st.hasProposal v ≠ 0)
    (hro : requireOwnerIdx st v sender = .ok si) :
    (st.approval v si = 0 →
      okb (approve st v sender) = true ∧
      (stOr1 (approve st v sender) st).approval v si = 1 ∧
      (stOr1 (approve st v sender) st).propApprovals v =
        st.propApprovals v + 1 ∧
      (∀ i, i ≠ si → (stOr1 (approve st v sender) st).approval v i =
        st.approval v i)) ∧
    (st.approval v si ≠ 0 →
      approve st v sender = .error .AlreadyApproved ∧
      stOr1 (approve st v sender) st = st) := by
  obtain ⟨-, hok⟩ := reachable_inv hreach hcap
  obtain ⟨-, k2, -, -, -, -, k7⟩ := hok v hv
  obtain ⟨-, -, c, -⟩ := k7 hp
  have hw : vid v = v := Nat.mod_eq_of_lt (by omega)
  constructor
  · intro hfl
    have he : approve st v sender = .ok (approveState st v si) :=
      approve_succeeds hv hro (by rw [hw]; exact hp) (by rw [hw]; exact hfl)
        (by rw [hw]; omega)
    rw [he]
    refine ⟨rfl, ?_, ?_, ?_⟩
    · show upd2 st.approval (vid v) si 1 v si = 1
      rw [hw, upd2_self]
    · show upd st.propApprovals (vid v) (st.propApprovals (vid v) + 1) v = _
      rw [hw, upd_self]
    · intro i hi
      show upd2 st.approval (vid v) si 1 v i = _
      rw [upd2_ne _ _ _ _ _ _ (fun hc => hi hc.2)]
  · intro hfl
    have he : approve st v sender = .error .AlreadyApproved :=
      approve_fails_already hv hro (by rw [hw]; exact hp)
        (by rw [hw]; exact hfl)
    rw [he]
    exact ⟨rfl, rfl⟩

/-- C7 witness: owner 2 approves the concrete proposal once (approvals go
from 1 to 2), and a second approve by the same owner fails. -/
theorem approve_spec_witness :
    okb (approve s3 0 2) = true ∧
    (stOr1 (approve s3 0 2) s3).propApprovals 0 = s3.propApprovals 0 + 1 ∧
    approve s4 0 2 = .error .AlreadyApproved := by
  have h1 := (approve_spec s3 0 2 1 reach_s3 (by decide) (by decide)
    (by decide) rfl).1 (by decide)
  have h2 := (approve_spec s4 0 2 1 reach_s4 (by decide) (by decide)
    (by decide) rfl).2 (by decide)
  exact ⟨h1.1, h1.2.2.1, h2.1⟩

end MultSigVault

namespace MultSigVault

/-- C4: a second successful `propose` on a vault with an active proposal
fully replaces it: `getProposal` afterwards returns exactly the new
recipient, the new amount and `approvals = 1` (never any old field), the new
proposer's flag is the only set flag among the owner slots, and
`totalProposals` is incremented by 1 (never decremented). -/
theorem propose_replaces (st : State) (v sender toA amount si : Nat)
    (st2 : State)
    (hreach : Reachable st) (hcap : st.vaultCount ≤ 2 ^ 32)
    (hv : v < st.vaultCount) (hp : st.hasProposal v ≠ 0)
    (hro : requireOwnerIdx st v sender = .ok si)
    (h : propose st v sender toA amount = .ok st2) :
    getProposal st2 v = .ok (toA, amount, 1) ∧
    st2.approval v si = 1 ∧
    (∀ i, i < st.ownerCount v → i ≠ si → st2.approval v i = 0) ∧
    st2.totalProposals v = st.totalProposals v + 1 := by
  obtain ⟨-, hok⟩ := reachable_inv hreach hcap
  have hw : vid v = v := Nat.mod_eq_of_lt (by omega)
  obtain ⟨k1, k2, -, -, -, -, -⟩ := hok v hv
  have hgoc : getOwnerCount st v = st.ownerCount v := by
    rw [getOwnerCount, hw]
    exact Nat.mod_eq_of_lt (by omega)
  obtain ⟨si2, -, hro2, -, -, -, -, hst⟩ := propose_ok h
  rw [hro] at hro2
  injection hro2 with hsieq
  subst hsieq
  have hpv : st.hasProposal (vid v) ≠ 0 := by rw [hw]; exact hp
  rw [if_pos hpv] at hst
  subst hst
  have e1 : (proposeWriteState (clearProposal st v) v si toA
      amount).propTo (vid v) = toA := by
    show upd (clearProposal st v).propTo (vid v) toA (vid v) = toA
    rw [upd_self]
  have e2 : (proposeWriteState (clearProposal st v) v si toA
      amount).propAmount (vid v) = amount := by
    show upd (clearProposal st v).propAmount (vid v) amount (vid v) = amount
    rw [upd_self]
  have e3 : (proposeWriteState (clearProposal st v) v si toA
      amount).propApprovals (vid v) = 1 := by
    show upd (clearProposal st v).propApprovals (vid v) 1 (vid v) = 1
    rw [upd_self]
  refine ⟨?_, ?_, ?_, ?_⟩
  · rw [getProposal,
      if_neg (show ¬ (proposeWriteState (clearProposal st v) v si toA
        amount).vaultCount ≤ v by
        rw [proposeWriteState_vaultCount, clearProposal_vaultCount]; omega),
      if_neg (show ¬ (proposeWriteState (clearProposal st v) v si toA
        amount).hasProposal (vid v) = 0 by
        show ¬ upd (clearProposal st v).hasProposal (vid v) 1 (vid v) = 0
        rw [upd_self]; exact one_ne_zero),
      e1, e2, e3]
  · show upd2 (clearProposal st v).approval (vid v) si 1 v si = 1
    rw [hw, upd2_self]
  · intro i hlt hne
    show upd2 (clearProposal st v).approval (vid v) si 1 v i = 0
    rw [upd2_ne _ _ _ _ _ _ (fun hc => hne hc.2)]
    show (if v = vid v ∧ i < getOwnerCount st v then 0
      else st.approval v i) = 0
    rw [if_pos ⟨hw.symm, by omega⟩]
  · show upd (clearProposal st v).totalProposals (vid v)
      ((clearProposal st v).totalProposals (vid v) + 1) v = _
    rw [hw, upd_self, clearProposal_totalProposals]

/-- Replacement proposal on the concrete trace: owner 2 replaces owner 1's
(5, 40) proposal with (6, 30). -/
def s3b : State := stOr1 (propose s3 0 2 6 30) s3

/-- C4 witness: after the concrete replacement, `getProposal` returns
exactly the new proposal with one approval and the lifetime counter grew. -/
theorem propose_replaces_witness :
    getProposal s3b 0 = .ok (6, 30, 1) ∧
    s3b.totalProposals 0 = s3.totalProposals 0 + 1 := by
  have h := propose_replaces s3 0 2 6 30 1 s3b reach_s3 (by decide)
    (by decide) (by decide) rfl rfl
  exact ⟨h.1, h.2.2.2⟩

/-- C9: `propose` checks neither who created the active proposal nor its
approval count: any owner with valid arguments replaces it, even when the
existing proposal has already reached quorum, discarding all its votes. -/
theorem propose_ignores_quorum (st : State) (v sender toA amount si : Nat)
    (hreach : Reachable st) (hcap : st.vaultCount ≤ 2 ^ 32)
    (hv : v < st.vaultCount) (hp : st.hasProposal v ≠ 0)
    (hq : st.threshold v ≤ st.propApprovals v)
    (hro : requireOwnerIdx st v sender = .ok si)
    (hto : toA ≠ 0) (hamt : amount ≠ 0) (hbal : amount ≤ st.balance v)
    (htot : st.totalProposals v + 1 < 2 ^ 256) :
    okb (propose st v sender toA amount) = true ∧
    (stOr1 (propose st v sender toA amount) st).propTo v = toA ∧
    (stOr1 (propose st v sender toA amount) st).propAmount v = amount ∧
    (stOr1 (propose st v sender toA amount) st).propApprovals v = 1 ∧
    (stOr1 (propose st v sender toA amount) st).hasProposal v ≠ 0 := by
  have hw : vid v = v := Nat.mod_eq_of_lt (by omega)
  have he := propose_succeeds hv hro hamt hto (by rw [hw]; exact hbal)
    (by rw [hw]; exact htot)
  rw [he]
  refine ⟨rfl, ?_, ?_, ?_, ?_⟩
  · show upd (if st.hasProposal (vid v) ≠ 0 then clearProposal st v
      else st).propTo (vid v) toA v = toA
    rw [hw, upd_self]
  · show upd (if st.hasProposal (vid v) ≠ 0 then clearProposal st v
      else st).propAmount (vid v) amount v = amount
    rw [hw, upd_self]
  · show upd (if st.hasProposal (vid v) ≠ 0 then clearProposal st v
      else st).propApprovals (vid v) 1 v = 1
    rw [hw, upd_self]
  · show upd (if st.hasProposal (vid v) ≠ 0 then clearProposal st v
      else st).hasProposal (vid v) 1 v ≠ 0
    rw [hw, upd_self]
    exact one_ne_zero

/-- C9 witness: on the quorum-reached concrete state (approvals 2 of
threshold 2), owner 3 — who neither proposed nor is blocked by the reached
quorum — successfully replaces the proposal, resetting approvals to 1. -/
theorem propose_ignores_quorum_witness :
    okb (propose s4 0 3 6 10) = true ∧
    (stOr1 (propose s4 0 3 6 10) s4).propApprovals 0 = 1 := by
  have h := propose_ignores_quorum s4 0 3 6 10 2 reach_s4 (by decide)
    (by decide) (by decide) (by decide) rfl (by decide) (by decide)
    (by decide) (by decide)
  exact ⟨h.1, h.2.2.2.1⟩

end MultSigVault
